import Mathlib

/-!
Verification development for the Maçon template utility (main.js).

The repository defines a single tagged-template function `template(strings, ...args)`
that assembles an HTML string from literal fragments and interpolated values,
parses it with jQuery into a live node collection, replaces placeholder markers
with non-text content, and equips the result with a `refresh()` method that
rebuilds the content in place.

The development below gives a shallow embedding:
- a DOM node model (`Node`) and a model of the external jQuery/DOM collaborator
  (HTML parsing, attribute maps, node replacement),
- direct translations of the source functions `createReference`,
  `getReferenceValue`, `buildComponent`, `copyAttributes`, `refresh`,
- theorems settling the specification claims.
-/

namespace Macon

/-- A DOM node: an element with a tag name, an attribute list and children,
or a text node. A jQuery collection is modelled as `List Node`. -/
inductive Node : Type where
  | elem (tag : String) (attrs : List (String × String)) (children : List Node)
  | text (s : String)

mutual

/-- Boolean equality on nodes (the derive handler does not support the
nested occurrence of `List Node`, so it is spelled out). -/
def Node.beq : Node → Node → Bool
  | .elem t1 a1 c1, .elem t2 a2 c2 => t1 == t2 && a1 == a2 && Node.beqList c1 c2
  | .text s1, .text s2 => s1 == s2
  | _, _ => false

/-- Boolean equality on node lists. -/
def Node.beqList : List Node → List Node → Bool
  | [], [] => true
  | x :: xs, y :: ys => Node.beq x y && Node.beqList xs ys
  | _, _ => false

end

mutual

theorem Node.beq_iff : ∀ (a b : Node), Node.beq a b = true ↔ a = b
  | .elem t1 a1 c1, .elem t2 a2 c2 => by
    rw [Node.beq, Bool.and_eq_true, Bool.and_eq_true, beq_iff_eq, beq_iff_eq,
      Node.beqList_iff c1 c2]
    constructor
    · rintro ⟨⟨h1, h2⟩, h3⟩
      rw [h1, h2, h3]
    · intro h
      injection h with h1 h2 h3
      exact ⟨⟨h1, h2⟩, h3⟩
  | .elem t1 a1 c1, .text s2 => by simp [Node.beq]
  | .text s1, .elem t2 a2 c2 => by simp [Node.beq]
  | .text s1, .text s2 => by
    rw [Node.beq, beq_iff_eq]
    exact ⟨fun h => by rw [h], fun h => by injection h⟩

theorem Node.beqList_iff : ∀ (a b : List Node), Node.beqList a b = true ↔ a = b
  | [], [] => by simp [Node.beqList]
  | [], _ :: _ => by simp [Node.beqList]
  | _ :: _, [] => by simp [Node.beqList]
  | x :: xs, y :: ys => by
    rw [Node.beqList, Bool.and_eq_true, Node.beq_iff x y, Node.beqList_iff xs ys]
    constructor
    · rintro ⟨h1, h2⟩
      rw [h1, h2]
    · intro h
      injection h with h1 h2
      exact ⟨h1, h2⟩

end

instance : DecidableEq Node := fun a b =>
  decidable_of_iff (Node.beq a b = true) (Node.beq_iff a b)

/-! ### HTML parsing (model of the external collaborator `$(html)`)

The source hands the assembled HTML string to jQuery, which parses it into a
node collection. The spec lists this as a consumed capability of the external
DOM library ("parse a markup string into a live node collection"). The
functions below model that capability with a small total HTML parser:
tokenise tags, attributes (quoted, unquoted and bare) and text runs, then
build a forest with a fueled stack builder. -/

/-- Characters allowed in tag and attribute names. -/
def isNameChar (c : Char) : Bool :=
  c.isAlphanum || c == '-' || c == '_' || c == ':'

/-- Longest name prefix of the character stream, lowercased as HTML parsers do. -/
def takeName (cs : List Char) : String × List Char :=
  (String.mk ((cs.takeWhile isNameChar).map Char.toLower), cs.dropWhile isNameChar)

/-- Skip leading whitespace. -/
def skipWs (cs : List Char) : List Char :=
  cs.dropWhile (·.isWhitespace)

/-- Record an attribute during tag lexing; HTML ignores a duplicate of an
attribute name that already appeared in the same tag. -/
def addAttr (attrs : List (String × String)) (name value : String) :
    List (String × String) :=
  if attrs.any (·.1 == name) then attrs else attrs ++ [(name, value)]

/-- Lex the attribute section of an open tag. Returns the attributes, whether
the tag was self-closing, and the remaining input. Fueled to stay total. -/
def lexAttrsAux : Nat → List Char → List (String × String) →
    List (String × String) × Bool × List Char
  | 0, cs, acc => (acc, false, cs)
  | fuel + 1, cs, acc =>
    match skipWs cs with
    | [] => (acc, false, [])
    | '>' :: rest => (acc, false, rest)
    | '/' :: '>' :: rest => (acc, true, rest)
    | c :: rest =>
      if isNameChar c then
        let (name, cs2) := takeName (c :: rest)
        match skipWs cs2 with
        | '=' :: cs3 =>
          match skipWs cs3 with
          | '"' :: cs4 =>
            let v := String.mk (cs4.takeWhile (· ≠ '"'))
            lexAttrsAux fuel ((cs4.dropWhile (· ≠ '"')).drop 1) (addAttr acc name v)
          | '\'' :: cs4 =>
            let v := String.mk (cs4.takeWhile (· ≠ '\''))
            lexAttrsAux fuel ((cs4.dropWhile (· ≠ '\'')).drop 1) (addAttr acc name v)
          | cs4 =>
            let v := String.mk (cs4.takeWhile (fun c => !c.isWhitespace && c ≠ '>'))
            lexAttrsAux fuel (cs4.dropWhile (fun c => !c.isWhitespace && c ≠ '>'))
              (addAttr acc name v)
        | cs3 => lexAttrsAux fuel cs3 (addAttr acc name "")
      else
        lexAttrsAux fuel rest acc

/-- Lex the attribute section of an open tag. -/
def lexAttrs (cs : List Char) : List (String × String) × Bool × List Char :=
  lexAttrsAux (cs.length + 1) cs []

/-- HTML tokens: an opening tag (with self-closing flag), a closing tag,
or a text run. -/
inductive Tok : Type where
  | tagOpen (tag : String) (attrs : List (String × String)) (selfClose : Bool)
  | tagClose (tag : String)
  | chars (s : String)
deriving DecidableEq

/-- Tokenise an HTML string. Fueled to stay total; every step consumes input. -/
def tokenizeAux : Nat → List Char → List Tok → List Tok
  | 0, _, acc => acc.reverse
  | _ + 1, [], acc => acc.reverse
  | fuel + 1, '<' :: '/' :: rest, acc =>
    let (name, cs) := takeName rest
    tokenizeAux fuel ((cs.dropWhile (· ≠ '>')).drop 1) (Tok.tagClose name :: acc)
  | fuel + 1, '<' :: rest, acc =>
    let (name, cs) := takeName rest
    if name.isEmpty then
      tokenizeAux fuel rest (Tok.chars "<" :: acc)
    else
      let (attrs, selfClose, cs2) := lexAttrs cs
      tokenizeAux fuel cs2 (Tok.tagOpen name attrs selfClose :: acc)
  | fuel + 1, cs, acc =>
    tokenizeAux fuel (cs.dropWhile (· ≠ '<'))
      (Tok.chars (String.mk (cs.takeWhile (· ≠ '<'))) :: acc)

/-- Tokenise an HTML string. -/
def tokenize (s : String) : List Tok :=
  tokenizeAux (s.length + 1) s.data []

/-- HTML void elements: an opening tag of these never takes children. -/
def isVoidTag (t : String) : Bool :=
  t == "br" || t == "hr" || t == "img" || t == "input" || t == "meta" ||
  t == "link" || t == "area" || t == "base" || t == "col" || t == "embed" ||
  t == "source" || t == "track" || t == "wbr"

/-- Build a forest of sibling nodes from a token stream. Returns the nodes
built at the current level and the tokens remaining after the level ends
(a closing tag or end of input). Fueled to stay total. -/
def buildForest : Nat → List Tok → List Node × List Tok
  | 0, toks => ([], toks)
  | _ + 1, [] => ([], [])
  | fuel + 1, Tok.chars s :: rest =>
    let (ns, r) := buildForest fuel rest
    (Node.text s :: ns, r)
  | fuel + 1, Tok.tagOpen t attrs selfClose :: rest =>
    if selfClose || isVoidTag t then
      let (ns, r) := buildForest fuel rest
      (Node.elem t attrs [] :: ns, r)
    else
      let (children, r) := buildForest fuel rest
      let (ns, r2) := buildForest fuel r
      (Node.elem t attrs children :: ns, r2)
  | _ + 1, Tok.tagClose _ :: rest => ([], rest)

/-- Model of `$(html)`: parse a markup string into a node collection. -/
def parse (s : String) : List Node :=
  let toks := tokenize s
  (buildForest (2 * toks.length + 1) toks).1

/-! ### Interpolated values

The source dispatches on the runtime shape of each interpolated value:
`typeof value == "function"`, `value instanceof jQuery || Array.isArray(value)`,
else splice as a string. Callbacks close over external mutable state; that
state is made explicit as a parameter of type `σ`, and a callback is a
function from the current state to its result. -/

/-- Result of invoking an interpolated callback: a plain string, a jQuery
collection, or an array of jQuery collections / DOM nodes. -/
inductive CbRes : Type where
  | str (s : String)
  | jq (nodes : List Node)
  | arr (colls : List (List Node))
deriving DecidableEq

/-- An interpolated value: plain string/primitive, jQuery collection, array
of collections, or zero-argument callback reading the external state `σ`. -/
inductive Value (σ : Type) : Type where
  | str (s : String)
  | jq (nodes : List Node)
  | arr (colls : List (List Node))
  | fn (f : σ → CbRes)

/-- A callback result, seen again as a plain JS value (this is what
`references.get(index)` hands back to `replaceWith`). -/
def CbRes.toValue {σ : Type} : CbRes → Value σ
  | .str s => .str s
  | .jq ns => .jq ns
  | .arr colls => .arr colls

/-- Mirrors the source test `typeof evaluated == "string"`. -/
def CbRes.isString : CbRes → Bool
  | .str _ => true
  | _ => false

/-- Whether a value is a raw function. -/
def Value.isFn {σ : Type} : Value σ → Bool
  | .fn _ => true
  | _ => false

/-! ### Template internals, translated from `template()` in main.js -/

/-- The `references` map: interpolation index to evaluated callback result.
Only `has`/`get`/`set`/`clear` are used by the source, so an association
list with first-match lookup models `Map` faithfully. -/
abbrev RefTable := List (Nat × CbRes)

/-- `references.set(index, evaluated)`: overwriting update (the new entry
shadows any previous entry for the same index under first-match lookup). -/
def setRef (refs : RefTable) (index : Nat) (r : CbRes) : RefTable :=
  (index, r) :: refs

/-- `references.has(index)` / `references.get(index)` combined. -/
def lookupRef (refs : RefTable) (index : Nat) : Option CbRes :=
  (refs.find? (·.1 == index)).map (·.2)

/-- The inert placeholder marker spliced into the HTML,
`` `<b data-slot-index=${index}></b>` `` in the source. -/
def markerHtml (index : Nat) : String :=
  "<b data-slot-index=" ++ toString index ++ "></b>"

/-- Translation of `createReference(value, index)` (main.js lines 37-50):
returns the string spliced into the HTML and the reference-table entry
recorded for this index, if any. -/
def createReference {σ : Type} (st : σ) (value : Value σ) (index : Nat) :
    String × Option CbRes :=
  match value with
  | .fn f =>
    match f st with
    | .str s => (s, none)
    | r => (markerHtml index, some r)
  | .jq _ => (markerHtml index, none)
  | .arr _ => (markerHtml index, none)
  | .str s => (s, none)

/-- The `args.reduce` loop of `buildComponent` (main.js line 27): fold the
values from index `i` onward, concatenating `createReference` output with
the following literal fragment, and threading the reference table.
A missing fragment concatenates as the string "undefined", as in JS. -/
def assembleFrom {σ : Type} (st : σ) (strings : List String) :
    List (Value σ) → Nat → String → RefTable → String × RefTable
  | [], _, acc, refs => (acc, refs)
  | v :: vs, i, acc, refs =>
    assembleFrom st strings vs (i + 1)
      (acc ++ (createReference st v i).1 ++ strings.getD (i + 1) "undefined")
      (match (createReference st v i).2 with
       | none => refs
       | some r => setRef refs i r)

/-- The full HTML assembly
`args.reduce((prev, value, i) => prev + createReference(value, i) + strings[i + 1], strings[0])`. -/
def assemble {σ : Type} (st : σ) (strings : List String) (args : List (Value σ))
    (refs : RefTable) : String × RefTable :=
  assembleFrom st strings args 0 (strings.getD 0 "undefined") refs

/-- Translation of `getReferenceValue(value, index)` (main.js lines 51-56):
the reference-table entry if present, else the original value (`none` models
the JS `undefined` that arises when `args[index]` does not exist). -/
def getReferenceValue {σ : Type} (value : Option (Value σ)) (refs : RefTable)
    (index : Nat) : Option (Value σ) :=
  match lookupRef refs index with
  | some r => some r.toValue
  | none => value

/-- Content spliced by `$(marker).replaceWith(value)` for a callback result:
a string is parsed as HTML, a jQuery collection is inserted as-is (same
nodes), an array is flattened in order. -/
def cbResContent : CbRes → List Node
  | .str s => parse s
  | .jq ns => ns
  | .arr colls => colls.flatten

/-- Content spliced by `$(marker).replaceWith(value)` for a plain value.
jQuery invokes a raw function argument and uses its return as content. -/
def valueContent {σ : Type} (st : σ) : Value σ → List Node
  | .str s => parse s
  | .jq ns => ns
  | .arr colls => colls.flatten
  | .fn f => cbResContent (f st)

/-- Whether an element matches the selector `b[data-slot-index]`. -/
def isMarkerElem (t : String) (attrs : List (String × String)) : Bool :=
  t == "b" && attrs.any (·.1 == "data-slot-index")

/-- The `data-slot-index` attribute value of a marker element
(`$(this).data("slotIndex")` reads it off the node). -/
def slotAttr (attrs : List (String × String)) : String :=
  ((attrs.find? (·.1 == "data-slot-index")).map (·.2)).getD ""

/-- Digit-string accumulator for `parseNatStr`. -/
def parseNatAux : List Char → Nat → Option Nat
  | [], acc => some acc
  | c :: cs, acc =>
    if c.isDigit then parseNatAux cs (acc * 10 + (c.toNat - '0'.toNat))
    else none

/-- Model of the numeric conversion jQuery `.data("slotIndex")` applies to
the attribute string: a non-empty all-digit string becomes the number it
denotes, anything else stays a non-number. -/
def parseNatStr (s : String) : Option Nat :=
  match s.data with
  | [] => none
  | cs => parseNatAux cs 0

/-- Replacement content for one marker whose slot attribute is `s`:
`getReferenceValue(args[index], index)` then `replaceWith`. A slot attribute
that is not a numeral gives `args[key] === undefined` and an empty
references lookup, and `replaceWith(undefined)` removes the marker, so the
content is empty, as it also is when `index` is out of range. -/
def slotContent {σ : Type} (st : σ) (args : List (Value σ)) (refs : RefTable)
    (s : String) : List Node :=
  match parseNatStr s with
  | none => []
  | some index =>
    match getReferenceValue args[index]? refs index with
    | none => []
    | some v => valueContent st v

mutual

/-- The marker-replacement pass over one descendant node
(`component.find("b[data-slot-index]").each(...)` with `replaceWith`):
a marker is replaced by its resolved content (which is not itself searched,
matching the snapshot taken by `find` before the replacements); any other
element keeps its shell and has its children processed. -/
def resolveNode {σ : Type} (st : σ) (args : List (Value σ)) (refs : RefTable) :
    Node → List Node
  | .text s => [.text s]
  | .elem t attrs children =>
    if isMarkerElem t attrs then
      slotContent st args refs (slotAttr attrs)
    else
      [.elem t attrs (resolveForest st args refs children)]

/-- The marker-replacement pass over a list of sibling descendants. -/
def resolveForest {σ : Type} (st : σ) (args : List (Value σ)) (refs : RefTable) :
    List Node → List Node
  | [] => []
  | n :: rest => resolveNode st args refs n ++ resolveForest st args refs rest

end

/-- The marker-replacement pass over the parsed collection: `find` only
matches descendants, so the roots themselves are never treated as markers. -/
def resolveRoots {σ : Type} (st : σ) (args : List (Value σ)) (refs : RefTable)
    (roots : List Node) : List Node :=
  roots.map fun n =>
    match n with
    | .text s => .text s
    | .elem t attrs children => .elem t attrs (resolveForest st args refs children)

/-- Translation of `buildComponent()` (main.js lines 26-36): assemble the
HTML, parse it, replace every marker found by the attribute selector, then
`references.clear()`. Returns the component collection and the (cleared)
reference table. -/
def buildComponent {σ : Type} (st : σ) (strings : List String)
    (args : List (Value σ)) (refs : RefTable) : List Node × RefTable :=
  (resolveRoots st args (assemble st strings args refs).2
    (parse (assemble st strings args refs).1), [])

/-! ### Attribute copying and refresh -/

/-- `destinationDOM.removeAttribute(name)`: drop the attribute with that name. -/
def removeAttr (attrs : List (String × String)) (name : String) :
    List (String × String) :=
  attrs.eraseP (·.1 == name)

/-- The loop `for (const { name } of destinationDOM.attributes)
destinationDOM.removeAttribute(name)` (main.js lines 58-60). `attributes` is
a live NamedNodeMap and its iterator walks it by index while the removals
shift the remaining entries down, so the iteration state is the pair of the
current index and the current (mutated) attribute list. -/
def removeAttrsLiveAux : Nat → Nat → List (String × String) →
    List (String × String)
  | 0, _, attrs => attrs
  | fuel + 1, i, attrs =>
    if h : i < attrs.length then
      removeAttrsLiveAux fuel (i + 1) (removeAttr attrs (attrs.get ⟨i, h⟩).1)
    else attrs

/-- The attribute-removal loop of `copyAttributes`, started at index 0. -/
def removeAttrsLive (attrs : List (String × String)) : List (String × String) :=
  removeAttrsLiveAux attrs.length 0 attrs

/-- `destinationDOM.setAttribute(name, value)`: update the attribute in
place if the name is present, else append it. -/
def setAttr (attrs : List (String × String)) (name value : String) :
    List (String × String) :=
  if attrs.any (·.1 == name) then
    attrs.map fun p => if p.1 == name then (name, value) else p
  else attrs ++ [(name, value)]

/-- Translation of `copyAttributes(sourceDOM, destinationDOM)` (main.js
lines 57-64): run the removal loop on the destination attributes, then set
every source attribute on the result. -/
def copyAttributes (source dest : List (String × String)) :
    List (String × String) :=
  source.foldl (fun acc p => setAttr acc p.1 p.2) (removeAttrsLive dest)

/-- The component instance: the closure state of one `template(...)` call
(the original fragments, the original values array and the `references`
map) together with the live node collection. -/
structure Component (σ : Type) : Type where
  strings : List String
  args : List (Value σ)
  refs : RefTable
  nodes : List Node

/-- Translation of `template(strings, ...args)` (main.js lines 22-24, 77):
a fresh empty reference table, one call to `buildComponent`, and the result
returned with the refresh capability (carried here by the structure). -/
def template {σ : Type} (st : σ) (strings : List String)
    (args : List (Value σ)) : Component σ :=
  let bc := buildComponent st strings args []
  { strings := strings, args := args, refs := bc.2, nodes := bc.1 }

/-- `updatedComponent.contents()`: the child nodes of each element of a
collection (text members contribute none). -/
def nodeChildren : Node → List Node
  | .elem _ _ cs => cs
  | .text _ => []

/-- `componentInstance.empty()` on one collection member: elements lose
their children, text members are untouched. -/
def emptyNode : Node → Node
  | .elem t a _ => .elem t a []
  | .text s => .text s

/-- `.append(updatedChildren)` on one collection member: elements receive
the content after their children; jQuery skips non-element members. -/
def appendContent (content : List Node) : Node → Node
  | .elem t a cs => .elem t a (cs ++ content)
  | .text s => .text s

/-- Translation of `refresh()` (main.js lines 70-75): rebuild from the
original fragments and the current state, detach the new content, empty the
live collection and append the new content, then copy the attributes of the
first new root onto the first live root. `copyAttributes` dereferences
`.attributes` of `get(0)` on both sides, which throws unless both are
element nodes; the thrown case is modelled as `none`. -/
def Component.refresh {σ : Type} (st : σ) (c : Component σ) :
    Option (Component σ) :=
  let bc := buildComponent st c.strings c.args c.refs
  let updatedChildren := bc.1.flatMap nodeChildren
  let newNodes := c.nodes.map fun n => appendContent updatedChildren (emptyNode n)
  match bc.1, newNodes with
  | Node.elem _ sa _ :: _, Node.elem dt da dc :: rest =>
    some { strings := c.strings, args := c.args, refs := bc.2,
           nodes := Node.elem dt (copyAttributes sa da) dc :: rest }
  | _, _ => none

/-- The reference-table contributions of the values from index `i` onward:
one entry per callback whose result is not a string. Specification-side
restatement of the `references.set` effects of one assembly pass, used to
reason about `assemble`. -/
def refsOf {σ : Type} (st : σ) : List (Value σ) → Nat → RefTable
  | [], _ => []
  | v :: vs, i =>
    refsOf st vs (i + 1) ++
      (match (createReference st v i).2 with
       | none => []
       | some r => [(i, r)])

/-- The identity shell of a node: its tag when it is an element, its text
content otherwise. Used to state that refresh changes nothing about a
collection member apart from children and attributes. -/
def shellOf : Node → String ⊕ String
  | .elem t _ _ => .inl t
  | .text s => .inr s

/-- The attribute list of a node (a text node has none). -/
def nodeAttrs : Node → List (String × String)
  | .elem _ a _ => a
  | .text _ => []

/-- The attribute list of the first collection member, when it is an
element (`collection.get(0).attributes`). -/
def headAttrs : List Node → List (String × String)
  | Node.elem _ a _ :: _ => a
  | _ => []

/-- A component instance whose live root carries two attributes while the
current state rebuilds a root carrying one different attribute: the live
collection holds `<div p q>`, the template is `<div ${cb}></div>` with the
callback returning the closed-over string, and the state is about to be
read as "r". -/
def twoAttrInstance : Component String :=
  { strings := ["<div ", "></div>"]
    args := [Value.fn fun s => CbRes.str s]
    refs := []
    nodes := [Node.elem "div" [("p", ""), ("q", "")] []] }

/-- Modelled from the spec: the direct string concatenation
`F[0] + V[0] + F[1] + ... + V[n-1] + F[n]` of fragments interleaved with
values, the comparison target of the all-strings claim. -/
def plainConcat : List String → List String → String
  | [], _ => ""
  | f :: fs, [] => f ++ plainConcat fs []
  | f :: fs, v :: vs => f ++ v ++ plainConcat fs vs

/-- The tail of the assembled HTML string from value index `j - 1` onward:
each value followed by the literal fragment at the next index. Helper for
relating the assembly fold to `plainConcat`. -/
def tailConcat (strings : List String) : List String → Nat → String
  | [], _ => ""
  | v :: vs, j => v ++ strings.getD j "undefined" ++ tailConcat strings vs (j + 1)

mutual

/-- No marker element occurs at this node or below it. -/
def markerFree : Node → Bool
  | .text _ => true
  | .elem t attrs children => !isMarkerElem t attrs && markerFreeList children

/-- No marker element occurs in this forest. -/
def markerFreeList : List Node → Bool
  | [] => true
  | n :: ns => markerFree n && markerFreeList ns

end

/-! ### Reference-table lemmas -/

theorem lookupRef_nil (j : Nat) : lookupRef [] j = none := rfl

theorem lookupRef_single_self (i : Nat) (r : CbRes) :
    lookupRef [(i, r)] i = some r := by
  simp [lookupRef]

theorem lookupRef_single_ne {i j : Nat} (r : CbRes) (h : j ≠ i) :
    lookupRef [(i, r)] j = none := by
  have hb : (i == j) = false := by
    rw [beq_eq_false_iff_ne]
    exact fun hij => h hij.symm
  simp [lookupRef, List.find?, hb]

theorem lookupRef_append (a b : RefTable) (j : Nat) :
    lookupRef (a ++ b) j = (lookupRef a j).or (lookupRef b j) := by
  simp only [lookupRef, List.find?_append]
  generalize List.find? (fun x => x.1 == j) a = o
  cases o <;> simp

/-- Keys recorded by `refsOf` from index `i` onward are all at least `i`. -/
theorem refsOf_lookup_lt {σ : Type} (st : σ) :
    ∀ (vs : List (Value σ)) (i j : Nat), j < i →
      lookupRef (refsOf st vs i) j = none
  | [], _, _, _ => rfl
  | v :: vs, i, j, h => by
    rw [refsOf, lookupRef_append, refsOf_lookup_lt st vs (i + 1) j (by omega)]
    cases hc : (createReference st v i).2 with
    | none => rfl
    | some r => simpa using lookupRef_single_ne r (by omega)

/-- The table built by one assembly pass has, at the index of each value,
exactly the entry `createReference` records for that value. -/
theorem refsOf_lookup {σ : Type} (st : σ) :
    ∀ (vs : List (Value σ)) (k i : Nat) (v : Value σ), vs[k]? = some v →
      lookupRef (refsOf st vs i) (i + k) = (createReference st v (i + k)).2
  | [], k, _, _, h => by simp at h
  | v0 :: vs, 0, i, v, h => by
    rw [List.getElem?_cons_zero, Option.some_inj] at h
    subst h
    rw [Nat.add_zero, refsOf, lookupRef_append,
      refsOf_lookup_lt st vs (i + 1) i (by omega)]
    cases hc : (createReference st v0 i).2 with
    | none => simp [lookupRef]
    | some r => simp [lookupRef_single_self i r]
  | v0 :: vs, k + 1, i, v, h => by
    rw [List.getElem?_cons_succ] at h
    rw [refsOf, lookupRef_append]
    have harith : i + (k + 1) = (i + 1) + k := by omega
    rw [harith, refsOf_lookup st vs k (i + 1) v h]
    cases hc : (createReference st v0 i).2 with
    | none =>
      cases (createReference st v ((i + 1) + k)).2 <;> simp [lookupRef]
    | some r =>
      cases hd : (createReference st v ((i + 1) + k)).2 with
      | none => simp [lookupRef_single_ne r (by omega : (i + 1) + k ≠ i)]
      | some r2 => rfl

/-- The reference table threaded out of the assembly loop is `refsOf`
prepended to the incoming table. -/
theorem assembleFrom_refs {σ : Type} (st : σ) (strings : List String) :
    ∀ (vs : List (Value σ)) (i : Nat) (acc : String) (refs : RefTable),
      (assembleFrom st strings vs i acc refs).2 = refsOf st vs i ++ refs
  | [], i, acc, refs => by simp [assembleFrom, refsOf]
  | v :: vs, i, acc, refs => by
    rw [assembleFrom, refsOf]
    cases hc : (createReference st v i).2 with
    | none =>
      simpa using assembleFrom_refs st strings vs (i + 1)
        (acc ++ (createReference st v i).1 ++ strings.getD (i + 1) "undefined") refs
    | some r =>
      simpa [setRef, List.append_assoc] using assembleFrom_refs st strings vs (i + 1)
        (acc ++ (createReference st v i).1 ++ strings.getD (i + 1) "undefined")
        ((i, r) :: refs)

/-- Lookup in the table produced by a full build-pass assembly starting from
the empty table: the entry at each value index is what `createReference`
records for that value. -/
theorem assemble_lookup {σ : Type} (st : σ) (strings : List String)
    (args : List (Value σ)) (i : Nat) (v : Value σ) (h : args[i]? = some v) :
    lookupRef (assemble st strings args []).2 i = (createReference st v i).2 := by
  rw [assemble, assembleFrom_refs, List.append_nil]
  simpa using refsOf_lookup st args i 0 v h

/-! ### Marker-resolution lemmas -/

mutual

/-- A marker-free node passes through the replacement pass untouched. -/
theorem resolveNode_markerFree {σ : Type} (st : σ) (args : List (Value σ))
    (refs : RefTable) :
    ∀ n : Node, markerFree n = true → resolveNode st args refs n = [n]
  | .text _, _ => rfl
  | .elem t attrs children, h => by
    rw [markerFree, Bool.and_eq_true, Bool.not_eq_true'] at h
    rw [resolveNode, h.1]
    simp [resolveForest_markerFree st args refs children h.2]

/-- A marker-free forest passes through the replacement pass untouched. -/
theorem resolveForest_markerFree {σ : Type} (st : σ) (args : List (Value σ))
    (refs : RefTable) :
    ∀ ns : List Node, markerFreeList ns = true → resolveForest st args refs ns = ns
  | [], _ => rfl
  | n :: ns, h => by
    rw [markerFreeList, Bool.and_eq_true] at h
    rw [resolveForest, resolveNode_markerFree st args refs n h.1,
      resolveForest_markerFree st args refs ns h.2]
    rfl

end

/-- A marker-free collection passes through the root-level pass untouched. -/
theorem resolveRoots_markerFree {σ : Type} (st : σ) (args : List (Value σ))
    (refs : RefTable) (roots : List Node) (h : markerFreeList roots = true) :
    resolveRoots st args refs roots = roots := by
  induction roots with
  | nil => rfl
  | cons n ns ih =>
    rw [markerFreeList, Bool.and_eq_true] at h
    rw [resolveRoots, List.map_cons]
    have htail := ih h.2
    rw [resolveRoots] at htail
    rw [htail]
    cases n with
    | text s => rfl
    | elem t attrs children =>
      have hmf := h.1
      rw [markerFree, Bool.and_eq_true] at hmf
      simp [resolveForest_markerFree st args refs children hmf.2]

mutual

/-- Two values arrays that resolve every slot to the same content give the
same replacement pass on any node. -/
theorem resolveNode_congr {σ : Type} (st : σ) (args1 args2 : List (Value σ))
    (refs : RefTable)
    (hs : ∀ s, slotContent st args1 refs s = slotContent st args2 refs s) :
    ∀ n : Node, resolveNode st args1 refs n = resolveNode st args2 refs n
  | .text _ => rfl
  | .elem t attrs children => by
    rw [resolveNode, resolveNode]
    cases hm : isMarkerElem t attrs with
    | true => simp [hs (slotAttr attrs)]
    | false => simp [resolveForest_congr st args1 args2 refs hs children]

/-- Forest version of `resolveNode_congr`. -/
theorem resolveForest_congr {σ : Type} (st : σ) (args1 args2 : List (Value σ))
    (refs : RefTable)
    (hs : ∀ s, slotContent st args1 refs s = slotContent st args2 refs s) :
    ∀ ns : List Node, resolveForest st args1 refs ns = resolveForest st args2 refs ns
  | [] => rfl
  | n :: ns => by
    rw [resolveForest, resolveForest,
      resolveNode_congr st args1 args2 refs hs n,
      resolveForest_congr st args1 args2 refs hs ns]

end

/-- Root-level version of `resolveNode_congr`. -/
theorem resolveRoots_congr {σ : Type} (st : σ) (args1 args2 : List (Value σ))
    (refs : RefTable)
    (hs : ∀ s, slotContent st args1 refs s = slotContent st args2 refs s)
    (roots : List Node) :
    resolveRoots st args1 refs roots = resolveRoots st args2 refs roots := by
  induction roots with
  | nil => rfl
  | cons n ns ih =>
    rw [resolveRoots, resolveRoots, List.map_cons, List.map_cons]
    rw [resolveRoots, resolveRoots] at ih
    rw [ih]
    cases n with
    | text s => rfl
    | elem t attrs children =>
      simp [resolveForest_congr st args1 args2 refs hs children]

/-- Splicing a table entry back in gives the same content as splicing the
evaluated result directly. -/
theorem valueContent_toValue {σ : Type} (st : σ) (r : CbRes) :
    valueContent st (r.toValue : Value σ) = cbResContent r := by
  cases r <;> rfl

/-- Two values that splice identically through `createReference` give the
same assembly fold in any position. -/
theorem assembleFrom_congr {σ : Type} (st : σ) (strings : List String)
    (a b : Value σ)
    (hab : ∀ j, createReference st a j = createReference st b j) :
    ∀ (l r2 : List (Value σ)) (i : Nat) (acc : String) (refs : RefTable),
      assembleFrom st strings (l ++ a :: r2) i acc refs
        = assembleFrom st strings (l ++ b :: r2) i acc refs
  | [], r2, i, acc, refs => by
    rw [List.nil_append, List.nil_append, assembleFrom, assembleFrom, hab i]
  | v :: l, r2, i, acc, refs => by
    rw [List.cons_append, List.cons_append, assembleFrom, assembleFrom]
    exact assembleFrom_congr st strings a b hab l r2 (i + 1) _ _

/-- A callback returning the string `s` resolves every slot exactly as the
plain string value `s` does, whichever index the slot refers to. -/
theorem slotContent_subst {σ : Type} (st : σ) (l r2 : List (Value σ))
    (f : σ → CbRes) (s : String) (hf : f st = CbRes.str s) (refs : RefTable)
    (q : String) :
    slotContent st (l ++ Value.fn f :: r2) refs q
      = slotContent st (l ++ Value.str s :: r2) refs q := by
  rw [slotContent, slotContent]
  cases hq : parseNatStr q with
  | none => rfl
  | some j =>
    simp only [getReferenceValue]
    cases hl : lookupRef refs j with
    | some r => rfl
    | none =>
      by_cases hj : j < l.length
      · rw [List.getElem?_append_left hj, List.getElem?_append_left hj]
      · have hj2 : l.length ≤ j := Nat.le_of_not_lt hj
        rw [List.getElem?_append_right hj2, List.getElem?_append_right hj2]
        cases hd : j - l.length with
        | zero =>
          simp only [List.getElem?_cons_zero]
          simp [valueContent, cbResContent, hf]
        | succ k => simp only [List.getElem?_cons_succ]

/-- The assembly fold on all-string values: the output string is the
accumulator followed by the values interleaved with the remaining literal
fragments, and the reference table is untouched. -/
theorem assembleFrom_str {σ : Type} (st : σ) (strings : List String) :
    ∀ (vals : List String) (i : Nat) (acc : String) (refs : RefTable),
      assembleFrom st strings (vals.map Value.str) i acc refs
        = (acc ++ tailConcat strings vals (i + 1), refs)
  | [], i, acc, refs => by simp [assembleFrom, tailConcat]
  | v :: vs, i, acc, refs => by
    rw [List.map_cons, assembleFrom]
    simp only [createReference]
    rw [assembleFrom_str st strings vs (i + 1)
      (acc ++ v ++ strings.getD (i + 1) "undefined") refs]
    rw [tailConcat]
    simp [String.append_assoc]

/-- Shifting one fragment off the front of the fragment list steps the
start index of `tailConcat` down by one. -/
theorem tailConcat_shift (f : String) (fs : List String) :
    ∀ (vs : List String) (j : Nat),
      tailConcat (f :: fs) vs (j + 1) = tailConcat fs vs j
  | [], _ => rfl
  | v :: vs, j => by
    rw [tailConcat, tailConcat, tailConcat_shift f fs vs (j + 1)]
    simp [List.getD_cons_succ]

/-- `plainConcat` against a fragment list one longer than the value list is
the head fragment followed by the interleaving of values and remaining
fragments. -/
theorem plainConcat_cons (f : String) :
    ∀ (fs vs : List String), fs.length = vs.length →
      plainConcat (f :: fs) vs = f ++ tailConcat fs vs 0
  | fs, [], h => by
    have hfs : fs = [] := List.eq_nil_of_length_eq_zero (by simpa using h)
    subst hfs
    simp [plainConcat, tailConcat]
  | [], _ :: _, h => by simp at h
  | f2 :: fs, v :: vs, h => by
    rw [plainConcat, tailConcat, plainConcat_cons f2 fs vs (by simpa using h)]
    rw [tailConcat_shift f2 fs vs 0]
    simp [List.getD_cons_zero, String.append_assoc]

/-! ### Frame lemmas for refresh -/

theorem shellOf_append_empty (content : List Node) (n : Node) :
    shellOf (appendContent content (emptyNode n)) = shellOf n := by
  cases n <;> rfl

theorem nodeAttrs_append_empty (content : List Node) (n : Node) :
    nodeAttrs (appendContent content (emptyNode n)) = nodeAttrs n := by
  cases n <;> rfl

/-- C2: after a successful `refresh()`, the component keeps its closure
(fragments and values array), its member count, every member keeps its kind
and tag (text members their text), and every member other than the root
keeps its attributes: only children and the root attributes change. -/
theorem refresh_keeps_instance_frame {σ : Type} (st : σ) (c c' : Component σ)
    (h : Component.refresh st c = some c') :
    c'.strings = c.strings ∧ c'.args = c.args
    ∧ c'.nodes.length = c.nodes.length
    ∧ c'.nodes.map shellOf = c.nodes.map shellOf
    ∧ (c'.nodes.drop 1).map nodeAttrs = (c.nodes.drop 1).map nodeAttrs := by
  simp only [Component.refresh] at h
  split at h
  next x1 x2 tag sa children tail dt da dc rest hbc hnew =>
    injection h with h1
    subst h1
    refine ⟨rfl, rfl, ?_, ?_, ?_⟩
    · have hlen := congrArg List.length hnew
      simp only [List.length_map, List.length_cons] at hlen
      simp [hlen]
    · have hshell := congrArg (List.map shellOf) hnew
      rw [List.map_map] at hshell
      calc List.map shellOf (Node.elem dt (copyAttributes sa da) dc :: rest)
          = Sum.inl dt :: List.map shellOf rest := by simp [shellOf]
        _ = List.map shellOf (Node.elem dt da dc :: rest) := by simp [shellOf]
        _ = List.map shellOf c.nodes := by
            rw [← hshell]
            exact List.map_eq_map_iff.mpr fun n _ => shellOf_append_empty _ n
    · have hd := congrArg (List.drop 1) hnew
      simp only [List.drop_succ_cons, List.drop_zero] at hd
      simp only [List.drop_succ_cons, List.drop_zero]
      rw [← hd, ← List.map_drop, List.map_map]
      exact List.map_eq_map_iff.mpr fun n _ => nodeAttrs_append_empty _ n
  next => simp at h

/-- C2 witness: a concrete successful refresh to which the frame theorem
applies. -/
theorem refresh_keeps_instance_frame_witness :
    Component.refresh () (⟨["<div></div>"], [], [], [Node.elem "div" [] [Node.text "old"]]⟩ :
        Component Unit)
      = some ⟨["<div></div>"], [], [], [Node.elem "div" [] []]⟩
    ∧ ((⟨["<div></div>"], [], [], [Node.elem "div" [] []]⟩ : Component Unit).strings
        = (⟨["<div></div>"], [], [], [Node.elem "div" [] [Node.text "old"]]⟩ :
            Component Unit).strings
      ∧ (⟨["<div></div>"], [], [], [Node.elem "div" [] []]⟩ : Component Unit).args
        = (⟨["<div></div>"], [], [], [Node.elem "div" [] [Node.text "old"]]⟩ :
            Component Unit).args
      ∧ (⟨["<div></div>"], [], [], [Node.elem "div" [] []]⟩ :
            Component Unit).nodes.length
        = (⟨["<div></div>"], [], [], [Node.elem "div" [] [Node.text "old"]]⟩ :
            Component Unit).nodes.length
      ∧ (⟨["<div></div>"], [], [], [Node.elem "div" [] []]⟩ :
            Component Unit).nodes.map shellOf
        = (⟨["<div></div>"], [], [], [Node.elem "div" [] [Node.text "old"]]⟩ :
            Component Unit).nodes.map shellOf
      ∧ ((⟨["<div></div>"], [], [], [Node.elem "div" [] []]⟩ :
            Component Unit).nodes.drop 1).map nodeAttrs
        = ((⟨["<div></div>"], [], [], [Node.elem "div" [] [Node.text "old"]]⟩ :
            Component Unit).nodes.drop 1).map nodeAttrs) :=
  ⟨rfl, refresh_keeps_instance_frame () _ _ rfl⟩

/-- C3: the attribute-sync step does not remove all attributes of the live
root. The removal loop iterates the live attribute map by index while
removing, so with live attributes `id="x" class="y"` and new-root attribute
`id="z"` the attribute `class="y"` survives and the result differs from the
attribute set of the newly built root. -/
theorem copyAttributes_live_iteration_skips :
    copyAttributes [("id", "z")] [("id", "x"), ("class", "y")]
      = [("class", "y"), ("id", "z")]
    ∧ copyAttributes [("id", "z")] [("id", "x"), ("class", "y")] ≠ [("id", "z")] :=
  ⟨rfl, by decide⟩

/-- C8: refreshing twice with the same state is not idempotent on the root
attributes. Starting from a live root `<div p q>` while the state rebuilds
`<div r>`, the first refresh leaves attributes `q r`, the second leaves
only `r`. -/
theorem refresh_twice_changes_root_attributes :
    Option.map (fun c => headAttrs c.nodes) (Component.refresh "r" twoAttrInstance)
      = some [("q", ""), ("r", "")]
    ∧ Option.map (fun c => headAttrs c.nodes)
        ((Component.refresh "r" twoAttrInstance).bind (Component.refresh "r"))
      = some [("r", "")]
    ∧ Option.map (fun c => headAttrs c.nodes) (Component.refresh "r" twoAttrInstance)
      ≠ Option.map (fun c => headAttrs c.nodes)
          ((Component.refresh "r" twoAttrInstance).bind (Component.refresh "r")) :=
  ⟨rfl, rfl, by decide⟩

/-- C9: the reference table is empty at the end of every build pass: after
`buildComponent`, after `template`, and after every successful `refresh`. -/
theorem references_cleared_after_build {σ : Type} (st : σ) (strings : List String)
    (args : List (Value σ)) (refs : RefTable) (c c' : Component σ)
    (h : Component.refresh st c = some c') :
    (buildComponent st strings args refs).2 = []
    ∧ (template st strings args).refs = []
    ∧ c'.refs = [] := by
  refine ⟨rfl, rfl, ?_⟩
  simp only [Component.refresh] at h
  split at h
  next x1 x2 tag sa children tail dt da dc rest hbc hnew =>
    injection h with h1
    subst h1
    rfl
  next => simp at h

/-- C9 witness: a concrete instantiation with a successful refresh. -/
theorem references_cleared_after_build_witness :
    Component.refresh () (⟨["<div></div>"], [], [], [Node.elem "div" [] []]⟩ :
        Component Unit)
      = some ⟨["<div></div>"], [], [], [Node.elem "div" [] []]⟩
    ∧ ((buildComponent () ["<p></p>"] ([] : List (Value Unit)) []).2 = []
      ∧ (template () ["<p></p>"] ([] : List (Value Unit))).refs = []
      ∧ (⟨["<div></div>"], [], [], [Node.elem "div" [] []]⟩ : Component Unit).refs = []) :=
  ⟨rfl, references_cleared_after_build () ["<p></p>"] [] []
    (⟨["<div></div>"], [], [], [Node.elem "div" [] []]⟩ : Component Unit)
    (⟨["<div></div>"], [], [], [Node.elem "div" [] []]⟩ : Component Unit) rfl⟩

/-- C10: a marker produced for a callback value always has a
reference-table entry at resolution time: the table built by the assembly
pass maps the callback index to the evaluated result, `getReferenceValue`
returns that evaluated result (not the raw function from the values array),
and the returned value is never a function. -/
theorem callback_marker_resolved_from_table {σ : Type} (st : σ)
    (strings : List String) (args : List (Value σ)) (i : Nat) (f : σ → CbRes)
    (ha : args[i]? = some (Value.fn f)) (hns : (f st).isString = false) :
    lookupRef (assemble st strings args []).2 i = some (f st)
    ∧ getReferenceValue args[i]? (assemble st strings args []).2 i
      = some ((f st).toValue)
    ∧ ((f st).toValue : Value σ).isFn = false := by
  have hcr : (createReference st (Value.fn f) i).2 = some (f st) := by
    rw [createReference]
    cases hf : f st with
    | str s => rw [hf, CbRes.isString] at hns; simp at hns
    | jq ns => rfl
    | arr colls => rfl
  have h1 : lookupRef (assemble st strings args []).2 i = some (f st) := by
    rw [assemble_lookup st strings args i _ ha, hcr]
  refine ⟨h1, ?_, ?_⟩
  · rw [getReferenceValue, h1]
  · cases f st <;> rfl

/-- C10 witness: a concrete callback interpolation whose marker resolves
from the table. -/
theorem callback_marker_resolved_from_table_witness :
    lookupRef (assemble () ["<p>", "</p>"]
        [Value.fn fun _ : Unit => CbRes.jq [Node.text "w"]] []).2 0
      = some (CbRes.jq [Node.text "w"])
    ∧ getReferenceValue ([Value.fn fun _ : Unit => CbRes.jq [Node.text "w"]])[0]?
        (assemble () ["<p>", "</p>"]
          [Value.fn fun _ : Unit => CbRes.jq [Node.text "w"]] []).2 0
      = some (Value.jq [Node.text "w"])
    ∧ (Value.jq [Node.text "w"] : Value Unit).isFn = false :=
  callback_marker_resolved_from_table () ["<p>", "</p>"]
    [Value.fn fun _ : Unit => CbRes.jq [Node.text "w"]] 0
    (fun _ : Unit => CbRes.jq [Node.text "w"]) rfl rfl

/-- C1: an interpolated value that is node-like (a jQuery collection) or an
array splices a marker carrying its index and records nothing in the
reference table; at resolution time the slot is filled from the original
values array with exactly the original value, whose content is the very
node list (for a jQuery value) or the flattened original collections (for
an array); end to end, building `<div>${v}</div>` puts exactly that
content under the root with no re-parsing, for every `ns` and `colls`. -/
theorem node_or_array_value_spliced_by_identity {σ : Type} (st : σ)
    (strings : List String) (args : List (Value σ)) (i : Nat) (v : Value σ)
    (ns : List Node) (colls : List (List Node)) (s : String)
    (hv : args[i]? = some v)
    (hna : v = Value.jq ns ∨ v = Value.arr colls)
    (hs : parseNatStr s = some i) :
    createReference st v i = (markerHtml i, none)
    ∧ lookupRef (assemble st strings args []).2 i = none
    ∧ getReferenceValue args[i]? (assemble st strings args []).2 i = some v
    ∧ slotContent st args (assemble st strings args []).2 s = valueContent st v
    ∧ valueContent st (Value.jq ns : Value σ) = ns
    ∧ valueContent st (Value.arr colls : Value σ) = colls.flatten
    ∧ buildComponent st ["<div>", "</div>"] [Value.jq ns] []
      = ([Node.elem "div" [] ns], [])
    ∧ buildComponent st ["<div>", "</div>"] [Value.arr colls] []
      = ([Node.elem "div" [] colls.flatten], []) := by
  have h1 : createReference st v i = (markerHtml i, none) := by
    rcases hna with rfl | rfl <;> rfl
  have h2 : lookupRef (assemble st strings args []).2 i = none := by
    rw [assemble_lookup st strings args i v hv, h1]
  have h3 : getReferenceValue args[i]? (assemble st strings args []).2 i
      = some v := by
    simp only [getReferenceValue, h2, hv]
  have h4 : slotContent st args (assemble st strings args []).2 s
      = valueContent st v := by
    simp only [slotContent, hs, h3]
  have h7 : buildComponent st ["<div>", "</div>"] [Value.jq ns] []
      = ([Node.elem "div" [] ns], []) := by
    have hb : buildComponent st ["<div>", "</div>"] [Value.jq ns] []
        = ([Node.elem "div" [] (ns ++ [])], []) := rfl
    simpa using hb
  have h8 : buildComponent st ["<div>", "</div>"] [Value.arr colls] []
      = ([Node.elem "div" [] colls.flatten], []) := by
    have hb : buildComponent st ["<div>", "</div>"] [Value.arr colls] []
        = ([Node.elem "div" [] (colls.flatten ++ [])], []) := rfl
    simpa using hb
  exact ⟨h1, h2, h3, h4, rfl, rfl, h7, h8⟩

/-- C1 witness: a concrete array value spliced by identity (with the
jQuery-value conjuncts instantiated alongside). -/
theorem node_or_array_value_spliced_by_identity_witness :
    createReference () (Value.arr [[Node.text "w"]] : Value Unit) 0
      = (markerHtml 0, none)
    ∧ lookupRef (assemble () ["<p>", "</p>"] [Value.arr [[Node.text "w"]]] []).2 0
      = none
    ∧ getReferenceValue ([Value.arr [[Node.text "w"]]] : List (Value Unit))[0]?
        (assemble () ["<p>", "</p>"] [Value.arr [[Node.text "w"]]] []).2 0
      = some (Value.arr [[Node.text "w"]])
    ∧ slotContent () ([Value.arr [[Node.text "w"]]] : List (Value Unit))
        (assemble () ["<p>", "</p>"] [Value.arr [[Node.text "w"]]] []).2 "0"
      = valueContent () (Value.arr [[Node.text "w"]] : Value Unit)
    ∧ valueContent () (Value.jq [Node.text "n"] : Value Unit) = [Node.text "n"]
    ∧ valueContent () (Value.arr [[Node.text "w"]] : Value Unit)
      = ([[Node.text "w"]] : List (List Node)).flatten
    ∧ buildComponent () ["<div>", "</div>"]
        ([Value.jq [Node.text "n"]] : List (Value Unit)) []
      = ([Node.elem "div" [] [Node.text "n"]], [])
    ∧ buildComponent () ["<div>", "</div>"]
        ([Value.arr [[Node.text "w"]]] : List (Value Unit)) []
      = ([Node.elem "div" [] ([[Node.text "w"]] : List (List Node)).flatten], []) :=
  node_or_array_value_spliced_by_identity () ["<p>", "</p>"]
    [Value.arr [[Node.text "w"]]] 0 (Value.arr [[Node.text "w"]])
    [Node.text "n"] [[Node.text "w"]] "0" rfl (Or.inr rfl) rfl

/-- C5: a callback returning a string is invoked during assembly and its
string is spliced directly (no marker, no table entry), and the whole build
equals the build obtained by interpolating that string as a plain value, in
any position of any template. -/
theorem string_callback_same_as_string {σ : Type} (st : σ)
    (strings : List String) (l r2 : List (Value σ)) (f : σ → CbRes) (s : String)
    (i : Nat) (refs : RefTable) (hf : f st = CbRes.str s) :
    createReference st (Value.fn f) i = (s, none)
    ∧ buildComponent st strings (l ++ Value.fn f :: r2) refs
      = buildComponent st strings (l ++ Value.str s :: r2) refs := by
  have hcr : ∀ j, createReference st (Value.fn f) j
      = createReference st (Value.str s) j := by
    intro j
    simp [createReference, hf]
  refine ⟨by simpa [createReference] using hcr i, ?_⟩
  rw [buildComponent, buildComponent, assemble, assemble,
    assembleFrom_congr st strings (Value.fn f) (Value.str s) hcr l r2 0
      (strings.getD 0 "undefined") refs]
  rw [resolveRoots_congr st (l ++ Value.fn f :: r2) (l ++ Value.str s :: r2)
    (assembleFrom st strings (l ++ Value.str s :: r2) 0
      (strings.getD 0 "undefined") refs).2
    (slotContent_subst st l r2 f s hf _)
    (parse (assembleFrom st strings (l ++ Value.str s :: r2) 0
      (strings.getD 0 "undefined") refs).1)]

/-- C5 witness: a concrete string-returning callback. -/
theorem string_callback_same_as_string_witness :
    createReference () (Value.fn fun _ : Unit => CbRes.str "hi") 0 = ("hi", none)
    ∧ buildComponent () ["<p>", "</p>"]
        ([] ++ Value.fn (fun _ : Unit => CbRes.str "hi") :: []) []
      = buildComponent () ["<p>", "</p>"] ([] ++ Value.str "hi" :: []) [] :=
  string_callback_same_as_string () ["<p>", "</p>"] [] []
    (fun _ : Unit => CbRes.str "hi") "hi" 0 [] rfl

/-- C6: a callback whose invocation returns a non-string records the
evaluated result in the table under its index and splices a marker; at
resolution time the marker is replaced from the table entry, which is
preferred over the values-array entry (the raw function). -/
theorem nonstring_callback_resolved_from_table {σ : Type} (st : σ)
    (strings : List String) (args : List (Value σ)) (i : Nat) (f : σ → CbRes)
    (r : CbRes) (s : String) (ha : args[i]? = some (Value.fn f)) (hf : f st = r)
    (hns : r.isString = false) (hs : parseNatStr s = some i) :
    createReference st (Value.fn f) i = (markerHtml i, some r)
    ∧ lookupRef (assemble st strings args []).2 i = some r
    ∧ getReferenceValue args[i]? (assemble st strings args []).2 i
      = some r.toValue
    ∧ slotContent st args (assemble st strings args []).2 s = cbResContent r := by
  have hcr : createReference st (Value.fn f) i = (markerHtml i, some r) := by
    rw [createReference, hf]
    cases r with
    | str s2 => rw [CbRes.isString] at hns; simp at hns
    | jq ns => rfl
    | arr colls => rfl
  have h2 : lookupRef (assemble st strings args []).2 i = some r := by
    rw [assemble_lookup st strings args i _ ha, hcr]
  have h3 : getReferenceValue args[i]? (assemble st strings args []).2 i
      = some r.toValue := by
    simp only [getReferenceValue, h2]
  refine ⟨hcr, h2, h3, ?_⟩
  simp only [slotContent, hs, h3]
  exact valueContent_toValue st r

/-- C6 witness: a concrete array-returning callback resolved from the
table. -/
theorem nonstring_callback_resolved_from_table_witness :
    createReference () (Value.fn fun _ : Unit => CbRes.arr [[Node.text "a"]]) 0
      = (markerHtml 0, some (CbRes.arr [[Node.text "a"]]))
    ∧ lookupRef (assemble () ["<p>", "</p>"]
        [Value.fn fun _ : Unit => CbRes.arr [[Node.text "a"]]] []).2 0
      = some (CbRes.arr [[Node.text "a"]])
    ∧ getReferenceValue
        ([Value.fn fun _ : Unit => CbRes.arr [[Node.text "a"]]])[0]?
        (assemble () ["<p>", "</p>"]
          [Value.fn fun _ : Unit => CbRes.arr [[Node.text "a"]]] []).2 0
      = some ((CbRes.arr [[Node.text "a"]]).toValue)
    ∧ slotContent () [Value.fn fun _ : Unit => CbRes.arr [[Node.text "a"]]]
        (assemble () ["<p>", "</p>"]
          [Value.fn fun _ : Unit => CbRes.arr [[Node.text "a"]]] []).2 "0"
      = cbResContent (CbRes.arr [[Node.text "a"]]) :=
  nonstring_callback_resolved_from_table () ["<p>", "</p>"]
    [Value.fn fun _ : Unit => CbRes.arr [[Node.text "a"]]] 0
    (fun _ : Unit => CbRes.arr [[Node.text "a"]]) (CbRes.arr [[Node.text "a"]])
    "0" rfl rfl rfl rfl

/-- C7: when every interpolated value is a plain string and the parsed
concatenation contains no marker elements (the marker non-collision
invariant of the data model) and has exactly one root element, the build
output is exactly the parse of the direct concatenation of fragments
interleaved with values. -/
theorem all_strings_build_is_parsed_concat {σ : Type} (st : σ)
    (strings : List String) (vals : List String)
    (hlen : strings.length = vals.length + 1)
    (hmf : markerFreeList (parse (plainConcat strings vals)) = true)
    (hroot : ∃ t a cs, parse (plainConcat strings vals) = [Node.elem t a cs]) :
    buildComponent st strings (vals.map Value.str) []
      = (parse (plainConcat strings vals), []) := by
  obtain ⟨f, fs, rfl⟩ : ∃ f fs, strings = f :: fs := by
    cases strings with
    | nil => simp at hlen
    | cons f fs => exact ⟨f, fs, rfl⟩
  have hassem : assemble st (f :: fs) (vals.map Value.str) []
      = (plainConcat (f :: fs) vals, []) := by
    rw [assemble, assembleFrom_str st (f :: fs) vals 0 (List.getD (f :: fs) 0 "undefined") [],
      plainConcat_cons f fs vals (by simpa using hlen),
      tailConcat_shift f fs vals 0]
    rfl
  rw [buildComponent, hassem]
  rw [resolveRoots_markerFree st (vals.map Value.str) [] _ hmf]

/-- C4: with the template `<ul><li>A</li>${cb}<li>B</li></ul>` whose
callback returns an array of built components computed from the closed-over
state, `refresh` re-invokes the callback at the current state and replaces
the prior children of the instance with the static first item, the new
array contents, and the static last item — whatever the prior children and
whatever the current state. -/
theorem refresh_reinvokes_array_callback {σ : Type} (st : σ)
    (f : σ → List (List Node)) (c : Component σ)
    (a0 : List (String × String)) (kids : List Node)
    (hstr : c.strings = ["<ul><li>A</li>", "<li>B</li></ul>"])
    (harg : c.args = [Value.fn fun s => CbRes.arr (f s)])
    (hrefs : c.refs = [])
    (hnodes : c.nodes = [Node.elem "ul" a0 kids]) :
    Component.refresh st c
      = some { strings := c.strings, args := c.args, refs := [],
               nodes := [Node.elem "ul" (copyAttributes [] a0)
                 ([Node.elem "li" [] [Node.text "A"]] ++ (f st).flatten
                   ++ [Node.elem "li" [] [Node.text "B"]])] } := by
  obtain ⟨cs, ca, cr, cn⟩ := c
  simp only at hstr harg hrefs hnodes
  subst hstr harg hrefs hnodes
  have hbc : buildComponent st ["<ul><li>A</li>", "<li>B</li></ul>"]
      [Value.fn fun s => CbRes.arr (f s)] []
      = ([Node.elem "ul" []
          (Node.elem "li" [] [Node.text "A"]
            :: ((f st).flatten ++ [Node.elem "li" [] [Node.text "B"]]))], []) := rfl
  simp only [Component.refresh, hbc]
  simp [nodeChildren, emptyNode, appendContent]

/-- C4 witness: a concrete refresh replacing stale children with the
callback array contents around the static items. -/
theorem refresh_reinvokes_array_callback_witness :
    Component.refresh 7 (⟨["<ul><li>A</li>", "<li>B</li></ul>"],
        [Value.fn fun _ : Nat => CbRes.arr [[Node.elem "li" [] [Node.text "N"]]]],
        [], [Node.elem "ul" [("class", "c")] [Node.text "old"]]⟩ : Component Nat)
      = some ⟨["<ul><li>A</li>", "<li>B</li></ul>"],
          [Value.fn fun _ : Nat => CbRes.arr [[Node.elem "li" [] [Node.text "N"]]]],
          [], [Node.elem "ul" []
            [Node.elem "li" [] [Node.text "A"], Node.elem "li" [] [Node.text "N"],
             Node.elem "li" [] [Node.text "B"]]]⟩ :=
  refresh_reinvokes_array_callback 7
    (fun _ : Nat => [[Node.elem "li" [] [Node.text "N"]]])
    (⟨["<ul><li>A</li>", "<li>B</li></ul>"],
        [Value.fn fun _ : Nat => CbRes.arr [[Node.elem "li" [] [Node.text "N"]]]],
        [], [Node.elem "ul" [("class", "c")] [Node.text "old"]]⟩ : Component Nat)
    [("class", "c")] [Node.text "old"] rfl rfl rfl rfl

/-- C7 witness: a concrete single-root all-strings template. -/
theorem all_strings_build_is_parsed_concat_witness :
    buildComponent () ["<p>", "</p>"] (["hi"].map Value.str) []
      = (parse (plainConcat ["<p>", "</p>"] ["hi"]), []) :=
  all_strings_build_is_parsed_concat () ["<p>", "</p>"] ["hi"] rfl rfl
    ⟨"p", [], [Node.text "hi"], rfl⟩

end Macon
